import Mathlib

/-!
Verification of the N26 CSV importer (`beancount_n26/__init__.py`).

Python strings are modelled as `List Char` (`PyStr`).  The CSV layer, the
`re` regular-expression engine, `datetime.strptime` and `decimal.Decimal`
are Python standard-library collaborators; their documented behaviour, to
the extent the importer exercises it, is modelled explicitly below.
-/

abbrev PyStr := List Char

/-- Python `str.split(sep)` for a one-character separator: splits on every
occurrence of `sep`; `"".split(",") = [""]` and adjacent separators yield
empty tokens. -/
def pySplit (sep : Char) : PyStr → List PyStr
  | [] => [[]]
  | c :: cs =>
    let r := pySplit sep cs
    if c = sep then [] :: r
    else (c :: r.headD []) :: r.tail

/-- Python `str.strip(c)` for a one-character set: removes every leading and
trailing occurrence of `c`. -/
def pyStrip (c : Char) (s : PyStr) : PyStr :=
  ((s.dropWhile (· = c)).reverse.dropWhile (· = c)).reverse

/-- The supported language codes, the keys of `HEADER_FIELDS`. -/
inductive Lang
  | en
  | de
  | fr
  deriving DecidableEq, Fintype

/-- One entry of a language's ordered header schema: semantic field key,
displayed column label, whether the column is optional. -/
structure FieldSpec where
  key : String
  label : PyStr
  optional : Bool

/-- The `HEADER_FIELDS` table: one ordered schema per supported language. -/
def HEADER_FIELDS : Lang → List FieldSpec
  | .en =>
    [⟨"date", "Date".data, false⟩,
     ⟨"payee", "Payee".data, false⟩,
     ⟨"account_number", "Account number".data, false⟩,
     ⟨"transaction_type", "Transaction type".data, false⟩,
     ⟨"payment_reference", "Payment reference".data, false⟩,
     ⟨"category", "Category".data, true⟩,
     ⟨"amount_eur", "Amount (EUR)".data, false⟩,
     ⟨"amount_foreign_currency", "Amount (Foreign Currency)".data, false⟩,
     ⟨"type_foreign_currency", "Type Foreign Currency".data, false⟩,
     ⟨"exchange_rate", "Exchange Rate".data, false⟩]
  | .de =>
    [⟨"date", "Datum".data, false⟩,
     ⟨"payee", "Empfänger".data, false⟩,
     ⟨"account_number", "Kontonummer".data, false⟩,
     ⟨"transaction_type", "Transaktionstyp".data, false⟩,
     ⟨"payment_reference", "Verwendungszweck".data, false⟩,
     ⟨"category", "Kategorie".data, true⟩,
     ⟨"amount_eur", "Betrag (EUR)".data, false⟩,
     ⟨"amount_foreign_currency", "Betrag (Fremdwährung)".data, false⟩,
     ⟨"type_foreign_currency", "Fremdwährung".data, false⟩,
     ⟨"exchange_rate", "Wechselkurs".data, false⟩]
  | .fr =>
    [⟨"date", "Date".data, false⟩,
     ⟨"payee", "Bénéficiaire".data, false⟩,
     ⟨"account_number", "Numéro de compte".data, false⟩,
     ⟨"transaction_type", "Type de transaction".data, false⟩,
     ⟨"payment_reference", "Référence de paiement".data, false⟩,
     ⟨"category", "Catégorie".data, true⟩,
     ⟨"amount_eur", "Montant (EUR)".data, false⟩,
     ⟨"amount_foreign_currency", "Montant (Devise étrangère)".data, false⟩,
     ⟨"type_foreign_currency", "Sélectionnez la devise étrangère".data, false⟩,
     ⟨"exchange_rate", "Taux de conversion".data, false⟩]

/-- `_translation_strings_for`: the ordered (key, label) pairs of a language. -/
def _translation_strings_for (language : Lang) : List (String × PyStr) :=
  (HEADER_FIELDS language).map fun f => (f.key, f.label)

/-- `N26Importer._translate`: dictionary lookup of a field key's column label. -/
def _translate (language : Lang) (key : String) : Option PyStr :=
  ((_translation_strings_for language).find? (fun kv => kv.1 = key)).map (·.2)

/-- `_header_values_for`: the ordered column labels of a language; with
`include_optional = false` the entries marked optional are removed (the
source deletes them from a copy of the ordered dict, which filters while
preserving the relative order of the rest). -/
def _header_values_for (language : Lang) (include_optional : Bool) : List PyStr :=
  ((HEADER_FIELDS language).filter (fun f => include_optional || !f.optional)).map
    (fun f => f.label)

/-- The comparison half of `is_valid_header`: compare the token count
against the full label list, retrying against the optional-omitted list on
a count mismatch (returning `False` if that count disagrees too), then
compare position-wise, any single mismatch returning `False`. -/
def headerCompare (language : Lang) (actual_values : List PyStr) : Bool :=
  if (_header_values_for language true).length = actual_values.length then
    ((_header_values_for language true).zip actual_values).all fun p => p.1 == p.2
  else if (_header_values_for language false).length = actual_values.length then
    ((_header_values_for language false).zip actual_values).all fun p => p.1 == p.2
  else false

/-- `N26Importer.is_valid_header`: split the line on `,`, strip surrounding
double quotes from each token, then compare against the expected labels. -/
def is_valid_header (language : Lang) (line : PyStr) : Bool :=
  headerCompare language ((pySplit ',' line).map (pyStrip '"'))

/-- Join tokens with a separator character (Python `sep.join(tokens)`). -/
def joinSep (sep : Char) : List PyStr → PyStr
  | [] => []
  | [t] => t
  | t :: t' :: ts => t ++ sep :: joinSep sep (t' :: ts)

/-- Wrap a token in double quotes, or not. -/
def pyWrap : Bool → PyStr → PyStr
  | true, t => '"' :: t ++ ['"']
  | false, t => t

/-- The canonical header line of a language: its labels joined by commas
(test support for the spec's `headerLineFor`). -/
def headerLineFor (language : Lang) (include_optional : Bool) : PyStr :=
  joinSep ',' (_header_values_for language include_optional)

example : is_valid_header .en (headerLineFor .en true) = true := by decide
example : is_valid_header .en (headerLineFor .en false) = true := by decide
example : is_valid_header .en (headerLineFor .de true) = false := by decide
example : is_valid_header .fr (headerLineFor .fr false) = true := by decide

/-! ## `datetime.strptime(-, "%Y-%m-%d").date()` -/

/-- A Python `datetime.date` value. -/
structure Date where
  year : Nat
  month : Nat
  day : Nat
  deriving DecidableEq

/-- Python `date.__gt__`: lexicographic comparison. -/
def dateGt (a b : Date) : Bool :=
  b.year < a.year ∨ (b.year = a.year ∧
    (b.month < a.month ∨ (b.month = a.month ∧ b.day < a.day)))

/-- Python `date.__le__`. -/
def dateLe (a b : Date) : Bool := !dateGt a b

/-- Numeric value of a decimal digit character. -/
def dv (c : Char) : Nat := c.toNat - '0'.toNat

/-- Value of a list of decimal digit characters. -/
def digitsToNat (ds : PyStr) : Nat := ds.foldl (fun n c => n * 10 + dv c) 0

/-- CPython `strptime`'s pattern for `%m` and `%d`: one or two digits
(leading zero optional, per the documented footnote).  Two digits are
consumed whenever two digits are present; since the character that follows
the field in `%Y-%m-%d` is `-` or end of input (never a digit), this is
exactly the regex `1[0-2]|0[1-9]|[1-9]` (resp. `3[01]|[12]\d|0[1-9]|[1-9]`)
with its range test deferred to the validity check below. -/
def parseTwoDigitField : PyStr → Option (Nat × PyStr)
  | a :: b :: rest =>
    if a.isDigit && b.isDigit then some (dv a * 10 + dv b, rest)
    else if a.isDigit then some (dv a, b :: rest)
    else none
  | [a] => if a.isDigit then some (dv a, []) else none
  | [] => none

/-- Gregorian leap year, as `datetime` uses it. -/
def isLeap (y : Nat) : Bool := y % 4 == 0 && (y % 100 != 0 || y % 400 == 0)

/-- Days in a month, as `datetime` validates day-of-month. -/
def daysInMonth (y m : Nat) : Nat :=
  if m = 2 then (if isLeap y then 29 else 28)
  else if m = 4 ∨ m = 6 ∨ m = 9 ∨ m = 11 then 30
  else 31

/-- `datetime.strptime(s, "%Y-%m-%d").date()`: exactly four digits of year,
a literal `-`, one or two digits of month, a literal `-`, one or two digits
of day, nothing left over ("unconverted data remains" otherwise), and the
`datetime` constructor's validity checks (year ≥ 1, month in 1..12, day in
1..days of the month).  Returns `none` where Python raises `ValueError`. -/
def strptimeYmd (s : PyStr) : Option Date :=
  match s with
  | y1 :: y2 :: y3 :: y4 :: '-' :: rest =>
    if y1.isDigit && y2.isDigit && y3.isDigit && y4.isDigit then
      let y := ((dv y1 * 10 + dv y2) * 10 + dv y3) * 10 + dv y4
      match parseTwoDigitField rest with
      | some (m, '-' :: rest₂) =>
        match parseTwoDigitField rest₂ with
        | some (d, []) =>
          if 1 ≤ y ∧ 1 ≤ m ∧ m ≤ 12 ∧ 1 ≤ d ∧ d ≤ daysInMonth y m then
            some ⟨y, m, d⟩
          else none
        | _ => none
      | _ => none
    else none
  | _ => none

example : strptimeYmd "2021-03-05".data = some ⟨2021, 3, 5⟩ := by decide
example : strptimeYmd "2021-3-5".data = some ⟨2021, 3, 5⟩ := by decide
example : strptimeYmd "2021-02-30".data = none := by decide
example : strptimeYmd "05.03.2021".data = none := by decide
example : strptimeYmd "2021-03-05x".data = none := by decide

/-! ## `decimal.Decimal(str)` -/

/-- A Python `Decimal` value, keeping the exact coefficient/exponent
representation the string constructor produces. -/
inductive PyDecimal
  | finite (neg : Bool) (coeff : Nat) (exp : Int)
  | infty (neg : Bool)
  | qnan
  | snan
  deriving DecidableEq

/-- Python whitespace (the characters `str.strip()` removes), ASCII part. -/
def pyIsSpace (c : Char) : Bool :=
  c = ' ' ∨ c = '\t' ∨ c = '\n' ∨ c = '\r' ∨ c = Char.ofNat 11 ∨ c = Char.ofNat 12

/-- ASCII lower-casing, as Python's case-insensitive comparisons use on the
ASCII fragment exercised here. -/
def pyLower (c : Char) : Char := c.toLower

/-- `decimal.Decimal(s)` for a string: per its documentation the string
must conform to the numeric-string grammar *after leading and trailing
whitespace characters, as well as underscores throughout, are removed*;
the grammar is case-insensitive and allows a sign, an integer/fraction
part, an exponent, and the special values `inf`/`infinity`/`nan`/`snan`.
Returns `none` where Python raises `decimal.InvalidOperation`. -/
def pyDecimal (s : PyStr) : Option PyDecimal :=
  let t :=
    (((s.dropWhile pyIsSpace).reverse.dropWhile pyIsSpace).reverse.filter
      (fun c => c ≠ '_')).map pyLower
  let signAndRest : Bool × PyStr :=
    match t with
    | '+' :: r => (false, r)
    | '-' :: r => (true, r)
    | r => (false, r)
  let neg := signAndRest.1
  let u := signAndRest.2
  if u = "inf".data ∨ u = "infinity".data then some (.infty neg)
  else
    match u with
    | 'n' :: 'a' :: 'n' :: r => if r.all Char.isDigit then some .qnan else none
    | 's' :: 'n' :: 'a' :: 'n' :: r => if r.all Char.isDigit then some .snan else none
    | _ =>
      let ip := u.takeWhile Char.isDigit
      let r₁ := u.dropWhile Char.isDigit
      let fracAndRest : PyStr × PyStr :=
        match r₁ with
        | '.' :: r => (r.takeWhile Char.isDigit, r.dropWhile Char.isDigit)
        | r => ([], r)
      let fp := fracAndRest.1
      let r₂ := fracAndRest.2
      if ip = [] ∧ fp = [] then none
      else
        let expVal : Option Int :=
          match r₂ with
          | [] => some 0
          | 'e' :: '+' :: ds => if ds ≠ [] ∧ ds.all Char.isDigit then some (digitsToNat ds) else none
          | 'e' :: '-' :: ds => if ds ≠ [] ∧ ds.all Char.isDigit then some (-(digitsToNat ds : Int)) else none
          | 'e' :: ds => if ds ≠ [] ∧ ds.all Char.isDigit then some (digitsToNat ds) else none
          | _ => none
        match expVal with
        | none => none
        | some e =>
          if (ip ++ fp).all Char.isDigit then
            some (.finite neg (digitsToNat (ip ++ fp)) (e - fp.length))
          else none

example : pyDecimal "12.34".data = some (.finite false 1234 (-2)) := by decide
example : pyDecimal "12,34".data = none := by decide
example : pyDecimal "-0.5".data = some (.finite true 5 (-1)) := by decide
example : pyDecimal " 1e3 ".data = some (.finite false 1 3) := by decide
example : pyDecimal "".data = none := by decide

/-! ## `re.compile(pattern, flags=re.IGNORECASE)` and `pattern.match(text)`

Compiled patterns are modelled as `RegularExpression Char`; the
`re.IGNORECASE` flag is modelled by ASCII case-folding both the pattern's
literals (at compilation) and the text (at matching). -/

open RegularExpression in
/-- `pattern.match(text)` under `re.IGNORECASE`: succeeds iff the regex
matches at position 0, i.e. iff it matches some prefix of the (case-folded)
text, not necessarily all of it.  Implemented as the engine works: test the
empty prefix, then consume one character at a time (Brzozowski
derivative). -/
def reMatchScan (r : RegularExpression Char) : PyStr → Bool
  | [] => r.matchEpsilon
  | c :: cs => r.matchEpsilon || reMatchScan (r.deriv c) cs

/-- `pattern.match(text)` as the importer calls it (truthiness of the match
object): case-fold the text, then scan for a matched prefix. -/
def reMatch (r : RegularExpression Char) (s : PyStr) : Bool :=
  reMatchScan r (s.map pyLower)

/-- `re.compile(p, flags=re.IGNORECASE)` for the fragment of pattern syntax
this importer's configurations exercise: an optional leading `^` anchor
(redundant under `.match`, which is anchored at position 0 already)
followed by literal characters, case-folded to model `re.IGNORECASE`.
Metacharacters other than a leading `^` are not modelled; no claim depends
on them. -/
def reCompile (p : PyStr) : RegularExpression Char :=
  let body : PyStr :=
    match p with
    | '^' :: r => r
    | r => r
  (body.map pyLower).foldr (fun c acc => RegularExpression.char c * acc) 1

/-! ## The importer -/

/-- The Python exceptions the importer can raise. -/
inductive PyError
  | invalidFormatError      -- `InvalidFormatError` (unsupported language)
  | assertionError (pattern : PyStr)  -- duplicate-pattern `assert`
  | osError                 -- `OSError` from `open()` (caught nowhere)
  | keyError                -- missing key in a row / translation lookup
  | invalidOperation        -- `decimal.InvalidOperation` from `Decimal()`
  | valueError              -- `ValueError` from `strptime`
  deriving DecidableEq

/-- A constructed `N26Importer`: the static configuration.  `payee_patterns`
is a Python `set`; it is modelled as a list in *some* iteration order,
which Python does not guarantee to be the insertion order. -/
structure N26Importer where
  iban : PyStr
  account : PyStr
  language : Lang
  file_encoding : PyStr
  payee_patterns : List (RegularExpression Char × PyStr)

/-- `_is_language_supported`: the raw language code's lookup in
`HEADER_FIELDS`. -/
def langOfCode (s : String) : Option Lang :=
  if s = "en" then some .en
  else if s = "de" then some .de
  else if s = "fr" then some .fr
  else none

/-- The constructor's pattern loop over the (account, pattern) pairs in
declaration order (the nested `for account, patterns ...: for pattern ...:`
flattened): assert each pattern string unseen, then compile and add the
rule.  Returns the rules in insertion order — one possible iteration order
of the resulting set. -/
def initRules : List (PyStr × PyStr) → List PyStr →
    Except PyError (List (RegularExpression Char × PyStr))
  | [], _ => .ok []
  | (acct, p) :: rest, seen =>
    if p ∈ seen then .error (.assertionError p)
    else
      match initRules rest (p :: seen) with
      | .error e => .error e
      | .ok rs => .ok ((reCompile p, acct) :: rs)

/-- `N26Importer.__init__`: reject an unsupported language with
`InvalidFormatError`, then build the payee rules, asserting that no
pattern string occurs twice anywhere in the configuration. -/
def N26Importer.init (iban account : PyStr) (language : String)
    (file_encoding : PyStr) (account_patterns : List (PyStr × List PyStr)) :
    Except PyError N26Importer :=
  match langOfCode language with
  | none => .error .invalidFormatError
  | some lang =>
    match initRules (account_patterns.flatMap fun ap => ap.2.map fun p => (ap.1, p)) [] with
    | .error e => .error e
    | .ok rules => .ok ⟨iban, account, lang, file_encoding, rules⟩

/-! ## Files

The file system and the `csv` module are external collaborators.  A file
handed to the importer is modelled by the outcome of opening and decoding
it: an `OSError` (missing/unreadable file), a decoding failure (a
`UnicodeDecodeError`, which is a `ValueError`), or its decoded content —
the stripped first line exactly as `identify` reads it, plus the data rows
exactly as `csv.DictReader` yields them (mappings from column label to raw
string value). -/

structure CsvFile where
  firstLine : PyStr
  rows : List (List (PyStr × PyStr))

inductive FileOutcome
  | osError
  | decodeError
  | ok (f : CsvFile)

/-- Python dict lookup `row[key]`, raising `KeyError` when absent. -/
def rowGet (row : List (PyStr × PyStr)) (key : PyStr) : Except PyError PyStr :=
  match row.find? (fun kv => kv.1 == key) with
  | some kv => .ok kv.2
  | none => .error .keyError

/-- `self._translate(key)`: dict lookup in the translation strings, raising
`KeyError` when absent (it never is, for the keys the importer uses). -/
def translateE (language : Lang) (key : String) : Except PyError PyStr :=
  match _translate language key with
  | some s => .ok s
  | none => .error .keyError

/-- `N26Importer._parse_date` on one row. -/
def _parse_date (language : Lang) (row : List (PyStr × PyStr)) :
    Except PyError Date :=
  match translateE language "date" with
  | .error e => .error e
  | .ok lbl =>
    match rowGet row lbl with
    | .error e => .error e
    | .ok v =>
      match strptimeYmd v with
      | some d => .ok d
      | none => .error .valueError

/-- `N26Importer.identify`: read and strip the first line and run the
header matcher; only a `ValueError` (decode failure) is caught and turned
into `False` — an `OSError` propagates. -/
def identify (imp : N26Importer) (fo : FileOutcome) : Except PyError Bool :=
  match fo with
  | .osError => .error .osError
  | .decodeError => .ok false
  | .ok f => .ok (is_valid_header imp.language f.firstLine)

/-- One leg of a transaction.  The source passes `None` for cost, price,
flag and meta on every posting it builds; only account and units are
modelled. -/
structure Posting where
  account : PyStr
  units : Option (PyDecimal × PyStr)
  deriving DecidableEq

/-- A `data.Transaction` as `extract` builds it (tags and links are always
`EMPTY_SET` and are not modelled; `meta` is `data.new_metadata(file name,
row index)`). -/
structure Transaction where
  meta : PyStr × Nat
  date : Date
  flag : PyStr
  payee : PyStr
  narration : PyStr
  postings : List Posting
  deriving DecidableEq

/-- The payee-matching loop of `extract`: iterate over all rules, keeping
the account of the *last* rule whose regex matches the payee. -/
def classifyMatch (patterns : List (RegularExpression Char × PyStr))
    (payee : PyStr) : Option PyStr :=
  patterns.foldl (fun m pat => if reMatch pat.1 payee then some pat.2 else m) none

/-- The posting list built for one row: the primary EUR posting, plus the
counter posting when the matching loop produced a truthy result (`if
match:` — Python truthiness, so `None` and the empty string both skip the
second posting). -/
def rowPostings (imp : N26Importer) (amount : PyDecimal) (payeeVal : PyStr) :
    List Posting :=
  match classifyMatch imp.payee_patterns payeeVal with
  | some acct =>
    if acct = [] then [Posting.mk imp.account (some (amount, "EUR".data))]
    else [Posting.mk imp.account (some (amount, "EUR".data)), Posting.mk acct none]
  | none => [Posting.mk imp.account (some (amount, "EUR".data))]

/-- The body of `extract`'s row loop for one row. -/
def extractRow (imp : N26Importer) (fname : PyStr)
    (s_amount_eur s_payee s_payment_reference : PyStr) (index : Nat)
    (row : List (PyStr × PyStr)) : Except PyError Transaction :=
  match rowGet row s_amount_eur with
  | .error e => .error e
  | .ok rawAmount =>
    match pyDecimal rawAmount with
    | none => .error .invalidOperation
    | some amount =>
      match rowGet row s_payee with
      | .error e => .error e
      | .ok payeeVal =>
        match _parse_date imp.language row with
        | .error e => .error e
        | .ok date =>
          match rowGet row s_payment_reference with
          | .error e => .error e
          | .ok ref =>
            .ok ⟨(fname, index), date, "*".data, payeeVal, ref,
              rowPostings imp amount payeeVal⟩

/-- `extract`'s `for index, line in enumerate(reader)` loop. -/
def extractRows (imp : N26Importer) (fname : PyStr)
    (s_amount_eur s_payee s_payment_reference : PyStr) (index : Nat) :
    List (List (PyStr × PyStr)) → Except PyError (List Transaction)
  | [] => .ok []
  | row :: rest =>
    match extractRow imp fname s_amount_eur s_payee s_payment_reference index row with
    | .error e => .error e
    | .ok t =>
      match extractRows imp fname s_amount_eur s_payee s_payment_reference
          (index + 1) rest with
      | .error e => .error e
      | .ok ts => .ok (t :: ts)

/-- `N26Importer.extract`: empty result when `identify` is false; otherwise
translate the needed labels once and map every data row, in file order.
The `existing_entries` parameter is ignored by the source and omitted. -/
def extract (imp : N26Importer) (fname : PyStr) (fo : FileOutcome) :
    Except PyError (List Transaction) :=
  match identify imp fo with
  | .error e => .error e
  | .ok false => .ok []
  | .ok true =>
    match fo with
    | .ok f =>
      match translateE imp.language "amount_eur" with
      | .error e => .error e
      | .ok s_amount_eur =>
        match translateE imp.language "payee" with
        | .error e => .error e
        | .ok s_payee =>
          match translateE imp.language "payment_reference" with
          | .error e => .error e
          | .ok s_payment_reference =>
            extractRows imp fname s_amount_eur s_payee s_payment_reference 0 f.rows
    | _ => .ok []   -- unreachable: `identify` is true only on readable content

/-- `file_date`'s row loop: `if not date or date_tmp > date`. -/
def fileDateLoop (language : Lang) (acc : Option Date) :
    List (List (PyStr × PyStr)) → Except PyError (Option Date)
  | [] => .ok acc
  | row :: rest =>
    match _parse_date language row with
    | .error e => .error e
    | .ok d =>
      fileDateLoop language
        (match acc with
         | none => some d
         | some a => if dateGt d a then some d else acc) rest

/-- `N26Importer.file_date`: `None` when `identify` is false, otherwise the
running maximum of every row's parsed date. -/
def file_date (imp : N26Importer) (fo : FileOutcome) :
    Except PyError (Option Date) :=
  match identify imp fo with
  | .error e => .error e
  | .ok false => .ok none
  | .ok true =>
    match fo with
    | .ok f => fileDateLoop imp.language none f.rows
    | _ => .ok none   -- unreachable: `identify` is true only on readable content

/-! ## Auxiliary predicates used by the theorems -/

/-- Modelled from the spec: a date string "in the exact format
`YYYY-MM-DD`" — four digits, a dash, two digits, a dash, two digits.
This follows the spec's words, for comparison against the code's actual
date parsing (`strptimeYmd`). -/
def spec_exactYmdFormat (s : PyStr) : Bool :=
  match s with
  | [a, b, c, d, h₁, e, f, h₂, g, i] =>
    a.isDigit && b.isDigit && c.isDigit && d.isDigit && h₁ = '-' &&
    e.isDigit && f.isDigit && h₂ = '-' && g.isDigit && i.isDigit
  | _ => false

/-- The column label a language's translation table assigns to a field key
(test support; `translateE` never fails on the keys the importer uses). -/
def labelFor (language : Lang) (key : String) : PyStr :=
  (_translate language key).getD []

/-- A data row is well formed when the columns `extract` reads are present
and their date and amount values parse. -/
def rowWellFormed (language : Lang) (row : List (PyStr × PyStr)) : Bool :=
  (match rowGet row (labelFor language "amount_eur") with
   | .ok v => (pyDecimal v).isSome
   | .error _ => false) &&
  (match rowGet row (labelFor language "payee") with
   | .ok _ => true
   | .error _ => false) &&
  (match rowGet row (labelFor language "payment_reference") with
   | .ok _ => true
   | .error _ => false) &&
  (match _parse_date language row with
   | .ok _ => true
   | .error _ => false)

/-! ## Concrete fixtures for witnesses and counterexamples -/

/-- A concrete importer configuration: own account `Assets:N26`, English,
one payee rule `^Acme → Expenses:Shop`. -/
def sampleImporter : N26Importer :=
  ⟨"DE00000000000000000000".data, "Assets:N26".data, .en, "utf-8".data,
   [(reCompile "^Acme".data, "Expenses:Shop".data)]⟩

/-- A concrete well-formed English data row. -/
def sampleRow : List (PyStr × PyStr) :=
  [("Date".data, "2021-03-05".data),
   ("Payee".data, "Acme Corp".data),
   ("Account number".data, "DE01".data),
   ("Transaction type".data, "Outgoing Transfer".data),
   ("Payment reference".data, "Groceries".data),
   ("Category".data, "Miscellaneous".data),
   ("Amount (EUR)".data, "-12.34".data),
   ("Amount (Foreign Currency)".data, "".data),
   ("Type Foreign Currency".data, "".data),
   ("Exchange Rate".data, "".data)]

/-- The same row with a later date and a payee no rule matches. -/
def sampleRow₂ : List (PyStr × PyStr) :=
  [("Date".data, "2021-04-01".data),
   ("Payee".data, "Zeta GmbH".data),
   ("Payment reference".data, "Rent".data),
   ("Amount (EUR)".data, "700".data)]

/-- A concrete well-formed English CSV file with two data rows. -/
def sampleFile : CsvFile := ⟨headerLineFor .en true, [sampleRow, sampleRow₂]⟩

/-- The same file with a header in the wrong language. -/
def sampleFileBadHeader : CsvFile := ⟨headerLineFor .de true, [sampleRow]⟩

/-- A file with a matching header and no data rows. -/
def sampleFileEmpty : CsvFile := ⟨headerLineFor .en true, []⟩

/-- The transaction `extract` builds from `sampleRow₂` at index 0 of
`t.csv`: no payee rule matches `Zeta GmbH`, so it has a single posting. -/
def sampleTxZeta : Transaction :=
  ⟨("t.csv".data, 0), ⟨2021, 4, 1⟩, "*".data, "Zeta GmbH".data, "Rent".data,
   [⟨"Assets:N26".data, some (.finite false 700 0, "EUR".data)⟩]⟩

/-- The transaction `extract` builds from `sampleRow` at index 0 of
`t.csv`: the `^Acme` rule matches, so a counter posting is appended. -/
def sampleTxAcme : Transaction :=
  ⟨("t.csv".data, 0), ⟨2021, 3, 5⟩, "*".data, "Acme Corp".data, "Groceries".data,
   [⟨"Assets:N26".data, some (.finite true 1234 (-2), "EUR".data)⟩,
    ⟨"Expenses:Shop".data, none⟩]⟩

/-- The `sampleRow₂` transaction at row index 1 (its position in
`sampleFile`). -/
def sampleTxZeta₁ : Transaction :=
  ⟨("t.csv".data, 1), ⟨2021, 4, 1⟩, "*".data, "Zeta GmbH".data, "Rent".data,
   [⟨"Assets:N26".data, some (.finite false 700 0, "EUR".data)⟩]⟩

/-- A row whose date is `2021-3-5`: not zero-padded `YYYY-MM-DD`, yet
accepted by `strptime`. -/
def sampleRowLoose : List (PyStr × PyStr) :=
  [("Date".data, "2021-3-5".data),
   ("Payee".data, "Zeta GmbH".data),
   ("Payment reference".data, "Rent".data),
   ("Amount (EUR)".data, "700".data)]

/-- The file holding only `sampleRowLoose`, with a matching header. -/
def sampleFileLoose : CsvFile := ⟨headerLineFor .en true, [sampleRowLoose]⟩

/-- The transaction `extract` builds from `sampleRowLoose`. -/
def sampleTxLoose : Transaction :=
  ⟨("t.csv".data, 0), ⟨2021, 3, 5⟩, "*".data, "Zeta GmbH".data, "Rent".data,
   [⟨"Assets:N26".data, some (.finite false 700 0, "EUR".data)⟩]⟩

/-- A row whose date `05.03.2021` fails the strict date parse. -/
def sampleRowBadDate : List (PyStr × PyStr) :=
  [("Date".data, "05.03.2021".data),
   ("Payee".data, "Zeta GmbH".data),
   ("Payment reference".data, "Rent".data),
   ("Amount (EUR)".data, "700".data)]

/-- The file holding only `sampleRowBadDate`, with a matching header. -/
def sampleFileBadDate : CsvFile := ⟨headerLineFor .en true, [sampleRowBadDate]⟩

/-- A row whose amount `12,34` (wrong decimal separator) fails `Decimal`. -/
def sampleRowBadAmount : List (PyStr × PyStr) :=
  [("Date".data, "2021-03-05".data),
   ("Payee".data, "Zeta GmbH".data),
   ("Payment reference".data, "Rent".data),
   ("Amount (EUR)".data, "12,34".data)]

/-- The file holding only `sampleRowBadAmount`, with a matching header. -/
def sampleFileBadAmount : CsvFile := ⟨headerLineFor .en true, [sampleRowBadAmount]⟩

/-- Rule `^Acme → Expenses:A` (compiled). -/
def ruleAcme : RegularExpression Char × PyStr :=
  (reCompile "^Acme".data, "Expenses:A".data)

/-- Rule `^Ac → Expenses:B` (compiled); also matches any payee `^Acme`
matches. -/
def ruleAc : RegularExpression Char × PyStr :=
  (reCompile "^Ac".data, "Expenses:B".data)

/-- An importer whose rule set iterates as `[ruleAcme, ruleAc]`. -/
def importerOrder₁ : N26Importer :=
  ⟨"DE00000000000000000000".data, "Assets:N26".data, .en, "utf-8".data,
   [ruleAcme, ruleAc]⟩

/-- The same configuration with the set's iteration order reversed. -/
def importerOrder₂ : N26Importer :=
  ⟨"DE00000000000000000000".data, "Assets:N26".data, .en, "utf-8".data,
   [ruleAc, ruleAcme]⟩

/-- A one-row file whose payee both rules match. -/
def sampleFileAcmeOnly : CsvFile := ⟨headerLineFor .en true, [sampleRow]⟩

/-- What `importerOrder₁` extracts from `sampleFileAcmeOnly`: the last
matching rule in its iteration order is `ruleAc`. -/
def c9Tx₁ : Transaction :=
  ⟨("t.csv".data, 0), ⟨2021, 3, 5⟩, "*".data, "Acme Corp".data, "Groceries".data,
   [⟨"Assets:N26".data, some (.finite true 1234 (-2), "EUR".data)⟩,
    ⟨"Expenses:B".data, none⟩]⟩

/-- What `importerOrder₂` extracts from the same file: its last matching
rule is `ruleAcme`. -/
def c9Tx₂ : Transaction :=
  ⟨("t.csv".data, 0), ⟨2021, 3, 5⟩, "*".data, "Acme Corp".data, "Groceries".data,
   [⟨"Assets:N26".data, some (.finite true 1234 (-2), "EUR".data)⟩,
    ⟨"Expenses:A".data, none⟩]⟩

/-- Tokens in a header line built from labels: a label is nonempty and never
contains a comma or carries a quote at either end. -/
def labelSane (l : PyStr) : Bool :=
  (l ≠ []) && (l.head? ≠ some '"') && (l.getLast? ≠ some '"') && (',' ∉ l)

/-! # Helper lemmas -/

theorem pySplit_ne_nil (sep : Char) (s : PyStr) : pySplit sep s ≠ [] := by
  cases s with
  | nil => simp [pySplit]
  | cons c cs =>
    simp only [pySplit]
    split <;> simp

theorem pySplit_no_sep {sep : Char} {s : PyStr} (h : sep ∉ s) :
    pySplit sep s = [s] := by
  induction s with
  | nil => rfl
  | cons c cs ih =>
    simp only [List.mem_cons, not_or] at h
    have hc : ¬c = sep := fun e => h.1 e.symm
    simp [pySplit, ih h.2, hc]

theorem pySplit_append {sep : Char} {t : PyStr} (r : PyStr) (h : sep ∉ t) :
    pySplit sep (t ++ sep :: r) = t :: pySplit sep r := by
  induction t with
  | nil => simp [pySplit]
  | cons c t' ih =>
    simp only [List.mem_cons, not_or] at h
    have hc : ¬c = sep := fun e => h.1 e.symm
    simp [pySplit, ih h.2, hc, pySplit_ne_nil]

theorem pySplit_joinSep {sep : Char} :
    ∀ {ts : List PyStr}, ts ≠ [] → (∀ t ∈ ts, sep ∉ t) →
      pySplit sep (joinSep sep ts) = ts := by
  intro ts
  induction ts with
  | nil => intro h; exact absurd rfl h
  | cons t ts ih =>
    intro _ h
    cases ts with
    | nil => exact pySplit_no_sep (h t (by simp))
    | cons t' ts' =>
      simp only [joinSep]
      rw [pySplit_append _ (h t (by simp)),
        ih (by simp) (fun x hx => h x (List.mem_cons_of_mem _ hx))]

theorem dropWhile_eq_self_of_head? {p : Char → Bool} {l : PyStr}
    (h : ∀ a, l.head? = some a → p a = false) : l.dropWhile p = l := by
  cases l with
  | nil => rfl
  | cons c cs =>
    rw [List.dropWhile_cons, h c rfl]
    simp

theorem pyStrip_eq_self {c : Char} {s : PyStr}
    (h₁ : s.head? ≠ some c) (h₂ : s.getLast? ≠ some c) :
    pyStrip c s = s := by
  unfold pyStrip
  have e₁ : s.dropWhile (· = c) = s :=
    dropWhile_eq_self_of_head? (fun a ha => by
      simp only [decide_eq_false_iff_not]
      exact fun e => h₁ (e ▸ ha))
  rw [e₁]
  have e₂ : s.reverse.dropWhile (· = c) = s.reverse :=
    dropWhile_eq_self_of_head? (fun a ha => by
      rw [List.head?_reverse] at ha
      simp only [decide_eq_false_iff_not]
      exact fun e => h₂ (e ▸ ha))
  rw [e₂, List.reverse_reverse]

theorem pyStrip_wrap {c : Char} {s : PyStr} (h₀ : s ≠ [])
    (h₁ : s.head? ≠ some c) (h₂ : s.getLast? ≠ some c) :
    pyStrip c (c :: (s ++ [c])) = s := by
  unfold pyStrip
  rw [List.dropWhile_cons, if_pos (by simp)]
  have e₁ : List.dropWhile (· = c) (s ++ [c]) = s ++ [c] :=
    dropWhile_eq_self_of_head? (fun a ha => by
      cases s with
      | nil => exact absurd rfl h₀
      | cons b s' =>
        simp only [List.cons_append, List.head?_cons, Option.some.injEq] at ha
        simp only [decide_eq_false_iff_not]
        exact fun e => h₁ (by simp [ha, e]))
  rw [e₁, List.reverse_append]
  simp only [List.reverse_cons, List.reverse_nil, List.nil_append,
    List.singleton_append]
  rw [List.dropWhile_cons, if_pos (by simp)]
  have e₂ : List.dropWhile (· = c) s.reverse = s.reverse :=
    dropWhile_eq_self_of_head? (fun b hb => by
      rw [List.head?_reverse] at hb
      simp only [decide_eq_false_iff_not]
      exact fun e => h₂ (e ▸ hb))
  rw [e₂, List.reverse_reverse]

theorem labelSane_spec {l : PyStr} (h : labelSane l = true) :
    l ≠ [] ∧ l.head? ≠ some '"' ∧ l.getLast? ≠ some '"' ∧ ',' ∉ l := by
  simp only [labelSane, Bool.and_eq_true, decide_eq_true_eq] at h
  exact ⟨h.1.1.1, h.1.1.2, h.1.2, h.2⟩

theorem pyStrip_pyWrap {b : Bool} {l : PyStr} (h : labelSane l = true) :
    pyStrip '"' (pyWrap b l) = l := by
  obtain ⟨h₀, h₁, h₂, _⟩ := labelSane_spec h
  cases b with
  | false => exact pyStrip_eq_self h₁ h₂
  | true => exact pyStrip_wrap h₀ h₁ h₂

theorem pyWrap_no_comma {b : Bool} {l : PyStr} (h : labelSane l = true) :
    ',' ∉ pyWrap b l := by
  obtain ⟨_, _, _, h₃⟩ := labelSane_spec h
  cases b with
  | false => exact h₃
  | true =>
    intro hmem
    rcases List.mem_cons.mp hmem with h | h
    · exact absurd h (by decide)
    · rcases List.mem_append.mp h with h | h
      · exact h₃ h
      · exact absurd (List.mem_singleton.mp h) (by decide)

theorem map_pyStrip_zipWith :
    ∀ {bs : List Bool} {ls : List PyStr}, bs.length = ls.length →
      (∀ l ∈ ls, labelSane l = true) →
      (List.zipWith pyWrap bs ls).map (pyStrip '"') = ls := by
  intro bs
  induction bs with
  | nil =>
    intro ls hlen _
    cases ls with
    | nil => rfl
    | cons l ls' => exact absurd hlen (by simp)
  | cons b bs' ih =>
    intro ls hlen hs
    cases ls with
    | nil => exact absurd hlen (by simp)
    | cons l ls' =>
      simp only [List.zipWith_cons_cons, List.map_cons]
      rw [pyStrip_pyWrap (hs l (by simp)),
        ih (by simpa using hlen) (fun x hx => hs x (List.mem_cons_of_mem _ hx))]

theorem comma_not_mem_zipWith :
    ∀ {bs : List Bool} {ls : List PyStr}, (∀ l ∈ ls, labelSane l = true) →
      ∀ t ∈ List.zipWith pyWrap bs ls, ',' ∉ t := by
  intro bs
  induction bs with
  | nil => intro ls _ t ht; simp at ht
  | cons b bs' ih =>
    intro ls hs t ht
    cases ls with
    | nil => simp at ht
    | cons l ls' =>
      simp only [List.zipWith_cons_cons, List.mem_cons] at ht
      rcases ht with rfl | ht
      · exact pyWrap_no_comma (hs l (by simp))
      · exact ih (fun x hx => hs x (List.mem_cons_of_mem _ hx)) t ht

theorem zip_self_all (l : List PyStr) :
    ((l.zip l).all fun p => p.1 == p.2) = true := by
  induction l with
  | nil => rfl
  | cons x xs ih => simpa using ih

theorem zip_all_false {e a : List PyStr} (hlen : e.length = a.length) {i : Nat}
    (hi : i < e.length) (hne : e.getD i [] ≠ a.getD i []) :
    ((e.zip a).all fun p => p.1 == p.2) = false := by
  by_contra h
  rw [Bool.not_eq_false, List.all_eq_true] at h
  have hiz : i < (e.zip a).length := by
    rw [List.length_zip, hlen, Nat.min_self]
    exact hlen ▸ hi
  have hmem := List.getElem_mem hiz
  rw [List.getElem_zip] at hmem
  have := h _ hmem
  simp only [beq_iff_eq] at this
  exact hne (by
    rw [List.getD_eq_getElem e [] hi, List.getD_eq_getElem a [] (hlen ▸ hi)]
    exact this)

/-- All thirty column labels are nonempty and free of commas and of
leading/trailing quotes. -/
theorem labels_sane :
    ∀ (L : Lang) (inc : Bool), ∀ l ∈ _header_values_for L inc, labelSane l = true := by
  decide

/-- Schema sizes: ten columns, nine with the optional column removed. -/
theorem hv_lengths :
    ∀ L : Lang, (_header_values_for L true).length = 10 ∧
      (_header_values_for L false).length = 9 := by
  decide

theorem is_valid_header_of_tokens (inc : Bool) {L : Lang} {line : PyStr}
    (h : (pySplit ',' line).map (pyStrip '"') = _header_values_for L inc) :
    is_valid_header L line = true := by
  rw [show is_valid_header L line
      = headerCompare L ((pySplit ',' line).map (pyStrip '"')) from rfl, h]
  cases inc with
  | true =>
    rw [headerCompare, if_pos rfl]
    exact zip_self_all _
  | false =>
    rw [headerCompare,
      if_neg (by rw [(hv_lengths L).1, (hv_lengths L).2]; decide),
      if_pos rfl]
    exact zip_self_all _

theorem is_valid_header_count_mismatch {L : Lang} {line : PyStr}
    (h₁ : (pySplit ',' line).length ≠ (_header_values_for L true).length)
    (h₂ : (pySplit ',' line).length ≠ (_header_values_for L false).length) :
    is_valid_header L line = false := by
  rw [show is_valid_header L line
      = headerCompare L ((pySplit ',' line).map (pyStrip '"')) from rfl, headerCompare]
  rw [if_neg (by rw [List.length_map]; exact fun e => h₁ e.symm),
    if_neg (by rw [List.length_map]; exact fun e => h₂ e.symm)]

theorem is_valid_header_token_mismatch {L : Lang} {inc : Bool} {line : PyStr}
    {i : Nat}
    (hlen : ((pySplit ',' line).map (pyStrip '"')).length
      = (_header_values_for L inc).length)
    (hi : i < (_header_values_for L inc).length)
    (hne : ((pySplit ',' line).map (pyStrip '"')).getD i []
      ≠ (_header_values_for L inc).getD i []) :
    is_valid_header L line = false := by
  rw [show is_valid_header L line
      = headerCompare L ((pySplit ',' line).map (pyStrip '"')) from rfl, headerCompare]
  cases inc with
  | true =>
    rw [if_pos hlen.symm]
    exact zip_all_false hlen.symm hi (Ne.symm hne)
  | false =>
    rw [if_neg (by rw [hlen, (hv_lengths L).1, (hv_lengths L).2]; decide),
      if_pos hlen.symm]
    exact zip_all_false hlen.symm hi (Ne.symm hne)

/-- C1: for every supported language L, `is_valid_header` accepts a line
consisting of exactly the full ordered label list of L — each token
optionally wrapped in double quotes — and likewise the list with the
optional category column removed; it rejects every line whose comma-token
count equals neither schema length, and every line with a position-wise
token mismatch against the count-selected schema. -/
theorem c1_header_matcher :
    ∀ L : Lang,
      (∀ (inc : Bool) (bs : List Bool),
        bs.length = (_header_values_for L inc).length →
        is_valid_header L
          (joinSep ',' (List.zipWith pyWrap bs (_header_values_for L inc))) = true) ∧
      (∀ line : PyStr,
        (pySplit ',' line).length ≠ (_header_values_for L true).length →
        (pySplit ',' line).length ≠ (_header_values_for L false).length →
        is_valid_header L line = false) ∧
      (∀ (line : PyStr) (inc : Bool) (i : Nat),
        ((pySplit ',' line).map (pyStrip '"')).length
          = (_header_values_for L inc).length →
        i < (_header_values_for L inc).length →
        ((pySplit ',' line).map (pyStrip '"')).getD i []
          ≠ (_header_values_for L inc).getD i [] →
        is_valid_header L line = false) := by
  intro L
  refine ⟨?_, fun line h₁ h₂ => is_valid_header_count_mismatch h₁ h₂,
    fun line inc i hlen hi hne => is_valid_header_token_mismatch hlen hi hne⟩
  intro inc bs hlen
  apply is_valid_header_of_tokens inc
  have hsane := labels_sane L inc
  have hpos : 0 < (_header_values_for L inc).length := by
    cases inc
    · rw [(hv_lengths L).2]; decide
    · rw [(hv_lengths L).1]; decide
  have hzlen : (List.zipWith pyWrap bs (_header_values_for L inc)).length
      = (_header_values_for L inc).length := by
    rw [List.length_zipWith, hlen, Nat.min_self]
  have htok : List.zipWith pyWrap bs (_header_values_for L inc) ≠ [] := by
    intro e
    rw [e] at hzlen
    simp only [List.length_nil] at hzlen
    omega
  rw [pySplit_joinSep htok (comma_not_mem_zipWith hsane),
    map_pyStrip_zipWith hlen hsane]

theorem c1_header_matcher_witness :
    is_valid_header .en (joinSep ','
      (List.zipWith pyWrap
        [true, false, true, false, true, false, true, false, true, false]
        (_header_values_for .en true))) = true ∧
    is_valid_header .en "Date".data = false ∧
    is_valid_header .en (headerLineFor .de true) = false :=
  ⟨(c1_header_matcher .en).1 true
      [true, false, true, false, true, false, true, false, true, false]
      (by decide),
   (c1_header_matcher .en).2.1 "Date".data (by decide) (by decide),
   (c1_header_matcher .en).2.2 (headerLineFor .de true) true 1
      (by decide) (by decide) (by decide)⟩

/-- C8: for every pair of distinct supported languages, the matcher
configured for one rejects the full header line of the other, even though
all schemas have the same column count (ten) and the English and French
schemas share the literal first label `Date`. -/
theorem c8_cross_language :
    (∀ L M : Lang, L ≠ M → is_valid_header L (headerLineFor M true) = false) ∧
    (∀ L : Lang, (_header_values_for L true).length = 10) ∧
    (_header_values_for .en true).getD 0 [] = "Date".data ∧
    (_header_values_for .fr true).getD 0 [] = "Date".data :=
  ⟨by decide, by decide, by decide, by decide⟩

theorem c8_cross_language_witness :
    is_valid_header .en (headerLineFor .fr true) = false :=
  c8_cross_language.1 .en .fr (by decide)

/-- C10: on a file whose header matches but which has zero data rows,
`file_date` returns `None` (while `identify` returns true); on a file whose
header does not match, `file_date` also returns `None` — so `None` alone
does not distinguish an unidentified file from an identified empty one. -/
theorem c10_empty_file_date :
    ∀ (imp : N26Importer) (f : CsvFile),
      (is_valid_header imp.language f.firstLine = true → f.rows = [] →
        identify imp (.ok f) = .ok true ∧ file_date imp (.ok f) = .ok none) ∧
      (is_valid_header imp.language f.firstLine = false →
        file_date imp (.ok f) = .ok none) := by
  intro imp f
  constructor
  · intro hv hr
    refine ⟨by simp [identify, hv], ?_⟩
    simp [file_date, identify, hv, hr, fileDateLoop]
  · intro hv
    simp [file_date, identify, hv]

theorem c10_empty_file_date_witness :
    identify sampleImporter (.ok sampleFileEmpty) = .ok true ∧
    file_date sampleImporter (.ok sampleFileEmpty) = .ok none ∧
    file_date sampleImporter (.ok sampleFileBadHeader) = .ok none :=
  ⟨((c10_empty_file_date sampleImporter sampleFileEmpty).1 (by decide) rfl).1,
   ((c10_empty_file_date sampleImporter sampleFileEmpty).1 (by decide) rfl).2,
   (c10_empty_file_date sampleImporter sampleFileBadHeader).2 (by decide)⟩

/-- C5 is false as stated: only a `ValueError` is caught by `identify`'s
`try`/`except`, so an `OSError` — a nonexistent or unreadable file —
propagates to the caller instead of yielding false.  Concretely, `identify`
on a file whose open fails with `OSError` is an error, not `.ok false`. -/
theorem c5_counterexample :
    identify sampleImporter .osError = .error .osError ∧
    identify sampleImporter .osError ≠ .ok false :=
  ⟨rfl, by simp [identify]⟩

/-- C5 amended: a *decoding* failure while reading the first line (a
`UnicodeDecodeError`, i.e. a `ValueError`) makes `identify` return false
rather than propagate; an `OSError` from opening the file propagates as an
error. -/
theorem c5_amended :
    ∀ imp : N26Importer,
      identify imp .decodeError = .ok false ∧
      identify imp .osError = .error .osError :=
  fun _ => ⟨rfl, rfl⟩

theorem initRules_ok_nodup :
    ∀ {pairs : List (PyStr × PyStr)} {seen : List PyStr}
      {rs : List (RegularExpression Char × PyStr)},
      initRules pairs seen = .ok rs →
      (pairs.map (·.2)).Nodup ∧ ∀ p ∈ pairs.map (·.2), p ∉ seen := by
  intro pairs
  induction pairs with
  | nil => intro seen rs _; exact ⟨List.nodup_nil, by simp⟩
  | cons ap rest ih =>
    intro seen rs h
    obtain ⟨a, p⟩ := ap
    rw [initRules] at h
    by_cases hseen : p ∈ seen
    · rw [if_pos hseen] at h
      exact absurd h (by simp)
    · rw [if_neg hseen] at h
      cases hrec : initRules rest (p :: seen) with
      | error e => rw [hrec] at h; exact absurd h (by simp)
      | ok rs' =>
        obtain ⟨hnd, hdisj⟩ := ih hrec
        refine ⟨List.nodup_cons.mpr ⟨fun hp => ?_, hnd⟩, ?_⟩
        · exact hdisj p hp (List.mem_cons_self p seen)
        · intro q hq
          simp only [List.map_cons, List.mem_cons] at hq
          rcases hq with rfl | hq
          · exact hseen
          · exact fun hqs => hdisj q hq (List.mem_cons_of_mem _ hqs)

/-- C7: construction raises whenever the same pattern string appears in the
pattern lists of two different accounts, and raises a format error for an
unsupported language; in both cases no importer instance is produced. -/
theorem c7_construction_errors :
    (∀ (iban acct : PyStr) (language : String) (enc : PyStr)
       (pre mid post : List (PyStr × List PyStr)) (a₁ a₂ : PyStr)
       (ps₁ ps₂ : List PyStr) (p : PyStr),
       a₁ ≠ a₂ → p ∈ ps₁ → p ∈ ps₂ →
       ∃ e, N26Importer.init iban acct language enc
         (pre ++ (a₁, ps₁) :: mid ++ (a₂, ps₂) :: post) = .error e) ∧
    (∀ (iban acct : PyStr) (language : String) (enc : PyStr)
       (ap : List (PyStr × List PyStr)), langOfCode language = none →
       N26Importer.init iban acct language enc ap = .error .invalidFormatError) := by
  constructor
  · intro iban acct language enc pre mid post a₁ a₂ ps₁ ps₂ p _ hp₁ hp₂
    cases hinit : N26Importer.init iban acct language enc
        (pre ++ (a₁, ps₁) :: mid ++ (a₂, ps₂) :: post) with
    | error e => exact ⟨e, rfl⟩
    | ok imp =>
      exfalso
      rw [N26Importer.init] at hinit
      cases hl : langOfCode language with
      | none => rw [hl] at hinit; exact absurd hinit (by simp)
      | some lang =>
        rw [hl] at hinit
        cases hr : initRules
            ((pre ++ (a₁, ps₁) :: mid ++ (a₂, ps₂) :: post).flatMap
              fun ap => ap.2.map fun p => (ap.1, p)) [] with
        | error e => rw [hr] at hinit; exact absurd hinit (by simp)
        | ok rules =>
          have hnd := (initRules_ok_nodup hr).1
          rw [List.map_flatMap] at hnd
          simp only [List.map_map, Function.comp_def, List.map_id'] at hnd
          simp only [List.flatMap_append, List.flatMap_cons,
            List.append_assoc] at hnd
          have h₂ := (List.nodup_append.mp hnd).2.1
          have hdisj := (List.nodup_append.mp h₂).2.2
          exact hdisj hp₁ (List.mem_append_right _ (List.mem_append_left _ hp₂))
  · intro iban acct language enc ap hl
    rw [N26Importer.init, hl]

theorem c7_construction_errors_witness :
    (∃ e, N26Importer.init "DE1".data "Assets:N26".data "en" "utf-8".data
      [("Expenses:A".data, ["^ACME".data]), ("Expenses:B".data, ["^ACME".data])]
      = .error e) ∧
    N26Importer.init "DE1".data "Assets:N26".data "it" "utf-8".data []
      = .error .invalidFormatError :=
  ⟨c7_construction_errors.1 "DE1".data "Assets:N26".data "en" "utf-8".data
      [] [] [] "Expenses:A".data "Expenses:B".data
      ["^ACME".data] ["^ACME".data] "^ACME".data
      (by decide) (by decide) (by decide),
   c7_construction_errors.2 "DE1".data "Assets:N26".data "it" "utf-8".data []
      (by decide)⟩

theorem reMatchScan_iff :
    ∀ (l : PyStr) (r : RegularExpression Char),
      reMatchScan r l = true ↔ ∃ k, k ≤ l.length ∧ r.rmatch (l.take k) = true := by
  intro l
  induction l with
  | nil =>
    intro r
    constructor
    · intro h
      exact ⟨0, Nat.le_refl 0, h⟩
    · rintro ⟨k, _, h⟩
      rw [List.take_nil] at h
      exact h
  | cons c cs ih =>
    intro r
    rw [reMatchScan, Bool.or_eq_true]
    constructor
    · rintro (h | h)
      · exact ⟨0, Nat.zero_le _, h⟩
      · obtain ⟨k, hk, hm⟩ := (ih (r.deriv c)).mp h
        exact ⟨k + 1, Nat.succ_le_succ hk, hm⟩
    · rintro ⟨k, hk, hm⟩
      cases k with
      | zero => exact Or.inl hm
      | succ k' =>
        exact Or.inr ((ih (r.deriv c)).mpr
          ⟨k', Nat.le_of_succ_le_succ hk, hm⟩)

theorem reMatch_iff :
    ∀ (r : RegularExpression Char) (s : PyStr),
      reMatch r s = true ↔
        ∃ k, k ≤ s.length ∧ (s.take k).map pyLower ∈ r.matches' := by
  intro r s
  rw [reMatch, reMatchScan_iff]
  constructor
  · rintro ⟨k, hk, hm⟩
    rw [List.length_map] at hk
    refine ⟨k, hk, ?_⟩
    rw [← RegularExpression.rmatch_iff_matches', List.map_take]
    exact hm
  · rintro ⟨k, hk, hm⟩
    refine ⟨k, by rw [List.length_map]; exact hk, ?_⟩
    rw [← List.map_take, RegularExpression.rmatch_iff_matches']
    exact hm

theorem classify_fold_gen :
    ∀ (l : List (RegularExpression Char × PyStr)) (payee : PyStr)
      (m₀ : Option PyStr),
      l.foldl (fun m pat => if reMatch pat.1 payee then some pat.2 else m) m₀ =
        ((l.filter fun pat => reMatch pat.1 payee).getLast?).elim m₀
          (fun q => some q.2) := by
  intro l payee
  induction l with
  | nil => intro m₀; rfl
  | cons pat rest ih =>
    intro m₀
    rw [List.foldl_cons]
    by_cases h : reMatch pat.1 payee = true
    · rw [if_pos h, ih,
        @List.filter_cons_of_pos _ (fun q => reMatch q.1 payee) pat rest h,
        List.getLast?_cons]
      cases hfr : (rest.filter fun pat => reMatch pat.1 payee).getLast? with
      | none => simp [hfr]
      | some q => simp [hfr]
    · rw [if_neg h, ih,
        @List.filter_cons_of_neg _ (fun q => reMatch q.1 payee) pat rest h]

theorem classifyMatch_eq_getLast?
    (patterns : List (RegularExpression Char × PyStr)) (payee : PyStr) :
    classifyMatch patterns payee =
      ((patterns.filter fun pat => reMatch pat.1 payee).getLast?).map (·.2) := by
  rw [classifyMatch, classify_fold_gen]
  cases (patterns.filter fun pat => reMatch pat.1 payee).getLast? <;> rfl

theorem extractRow_eq {imp : N26Importer} {fname sA sP sR : PyStr} {idx : Nat}
    {row : List (PyStr × PyStr)} {rawAmount payeeVal ref : PyStr}
    {amount : PyDecimal} {date : Date}
    (h₁ : rowGet row sA = .ok rawAmount) (h₂ : pyDecimal rawAmount = some amount)
    (h₃ : rowGet row sP = .ok payeeVal) (h₄ : _parse_date imp.language row = .ok date)
    (h₅ : rowGet row sR = .ok ref) :
    extractRow imp fname sA sP sR idx row
      = .ok ⟨(fname, idx), date, "*".data, payeeVal, ref,
          rowPostings imp amount payeeVal⟩ := by
  simp only [extractRow, h₁, h₂, h₃, h₄, h₅]

theorem extractRow_ok_inv {imp : N26Importer} {fname sA sP sR : PyStr} {idx : Nat}
    {row : List (PyStr × PyStr)} {t : Transaction}
    (h : extractRow imp fname sA sP sR idx row = .ok t) :
    ∃ rawAmount amount payeeVal date ref,
      rowGet row sA = .ok rawAmount ∧ pyDecimal rawAmount = some amount ∧
      rowGet row sP = .ok payeeVal ∧ _parse_date imp.language row = .ok date ∧
      rowGet row sR = .ok ref ∧
      t = ⟨(fname, idx), date, "*".data, payeeVal, ref,
        rowPostings imp amount payeeVal⟩ := by
  rw [extractRow] at h
  split at h
  · exact absurd h (by simp)
  next rawAmount h₁ =>
    split at h
    · exact absurd h (by simp)
    next amount h₂ =>
      split at h
      · exact absurd h (by simp)
      next payeeVal h₃ =>
        split at h
        · exact absurd h (by simp)
        next date h₄ =>
          split at h
          · exact absurd h (by simp)
          next ref h₅ =>
            injection h with h
            exact ⟨rawAmount, amount, payeeVal, date, ref, h₁, h₂, h₃, h₄, h₅,
              h.symm⟩

/-- C2: a rule matches iff its case-insensitively compiled regex matches a
prefix of the payee text anchored at position 0 (not necessarily the whole
string); when at least one rule matches, the classifier's result is the
account of the last matching rule in iteration order; when none matches the
classifier yields no account and the extracted record has exactly one
posting. -/
theorem c2_payee_classifier :
    (∀ (r : RegularExpression Char) (payee : PyStr),
      reMatch r payee = true ↔
        ∃ k, k ≤ payee.length ∧ (payee.take k).map pyLower ∈ r.matches') ∧
    (∀ (patterns : List (RegularExpression Char × PyStr)) (payee : PyStr),
      classifyMatch patterns payee
        = ((patterns.filter fun pat => reMatch pat.1 payee).getLast?).map (·.2)) ∧
    (∀ (imp : N26Importer) (fname sA sP sR : PyStr) (idx : Nat)
       (row : List (PyStr × PyStr)) (t : Transaction),
      extractRow imp fname sA sP sR idx row = .ok t →
      (∀ pat ∈ imp.payee_patterns, reMatch pat.1 t.payee = false) →
      classifyMatch imp.payee_patterns t.payee = none ∧
        t.postings.length = 1) := by
  refine ⟨reMatch_iff, classifyMatch_eq_getLast?, ?_⟩
  intro imp fname sA sP sR idx row t h hnone
  have hcl : classifyMatch imp.payee_patterns t.payee = none := by
    rw [classifyMatch_eq_getLast?]
    have hnil : imp.payee_patterns.filter (fun pat => reMatch pat.1 t.payee) = [] :=
      List.filter_eq_nil_iff.mpr (fun pat hpat => by simp [hnone pat hpat])
    rw [hnil]
    rfl
  refine ⟨hcl, ?_⟩
  obtain ⟨rawAmount, amount, payeeVal, date, ref, _, _, _, _, _, rfl⟩ :=
    extractRow_ok_inv h
  have hcl' : classifyMatch imp.payee_patterns payeeVal = none := hcl
  show (rowPostings imp amount payeeVal).length = 1
  rw [rowPostings, hcl']
  rfl

theorem c2_payee_classifier_witness :
    reMatch (reCompile "^Acme".data) "Acme Corp".data = true ∧
    classifyMatch sampleImporter.payee_patterns sampleTxZeta.payee = none ∧
    sampleTxZeta.postings.length = 1 :=
  ⟨(c2_payee_classifier.1 (reCompile "^Acme".data) "Acme Corp".data).mpr
      ⟨4, by decide, by decide⟩,
   c2_payee_classifier.2.2 sampleImporter "t.csv".data "Amount (EUR)".data
      "Payee".data "Payment reference".data 0 sampleRow₂ sampleTxZeta
      (by rfl) (by decide)⟩

theorem translateE_fields (L : Lang) :
    translateE L "amount_eur" = .ok (labelFor L "amount_eur") ∧
    translateE L "payee" = .ok (labelFor L "payee") ∧
    translateE L "payment_reference" = .ok (labelFor L "payment_reference") ∧
    translateE L "date" = .ok (labelFor L "date") := by
  cases L <;> exact ⟨rfl, rfl, rfl, rfl⟩

theorem extract_osError (imp : N26Importer) (fname : PyStr) :
    extract imp fname .osError = .error .osError := rfl

theorem extract_decodeError (imp : N26Importer) (fname : PyStr) :
    extract imp fname .decodeError = .ok [] := rfl

theorem extract_ok_badHeader {imp : N26Importer} {f : CsvFile}
    (hb : is_valid_header imp.language f.firstLine = false) (fname : PyStr) :
    extract imp fname (.ok f) = .ok [] := by
  rw [extract, show identify imp (.ok f)
      = .ok (is_valid_header imp.language f.firstLine) from rfl, hb]

theorem extract_ok_goodHeader {imp : N26Importer} {f : CsvFile}
    {sA sP sR : PyStr}
    (hb : is_valid_header imp.language f.firstLine = true) (fname : PyStr)
    (hA : translateE imp.language "amount_eur" = .ok sA)
    (hP : translateE imp.language "payee" = .ok sP)
    (hR : translateE imp.language "payment_reference" = .ok sR) :
    extract imp fname (.ok f) = extractRows imp fname sA sP sR 0 f.rows := by
  rw [extract, show identify imp (.ok f)
      = .ok (is_valid_header imp.language f.firstLine) from rfl, hb, hA, hP, hR]

theorem extractRows_mem {imp : N26Importer} {fname sA sP sR : PyStr} :
    ∀ {rows : List (List (PyStr × PyStr))} {idx : Nat} {l : List Transaction},
      extractRows imp fname sA sP sR idx rows = .ok l →
      ∀ t ∈ l, ∃ i row, row ∈ rows ∧ extractRow imp fname sA sP sR i row = .ok t := by
  intro rows
  induction rows with
  | nil =>
    intro idx l h t ht
    injection h with h
    rw [← h] at ht
    simp at ht
  | cons row rest ih =>
    intro idx l h t ht
    rw [extractRows] at h
    cases h₁ : extractRow imp fname sA sP sR idx row with
    | error e => rw [h₁] at h; simp at h
    | ok t₀ =>
      rw [h₁] at h
      cases h₂ : extractRows imp fname sA sP sR (idx + 1) rest with
      | error e => rw [h₂] at h; simp at h
      | ok ts =>
        rw [h₂] at h
        simp only [Except.ok.injEq] at h
        rw [← h] at ht
        rcases List.mem_cons.mp ht with rfl | ht'
        · exact ⟨idx, row, by simp, h₁⟩
        · obtain ⟨i, row', hrow', hx⟩ := ih h₂ t ht'
          exact ⟨i, row', List.mem_cons_of_mem _ hrow', hx⟩

theorem extract_mem_from_row {imp : N26Importer} {fname : PyStr}
    {fo : FileOutcome} {l : List Transaction} (h : extract imp fname fo = .ok l) :
    ∀ t ∈ l, ∃ sA sP sR idx row,
      extractRow imp fname sA sP sR idx row = .ok t := by
  intro t ht
  cases fo with
  | osError => rw [extract_osError] at h; exact absurd h (by simp)
  | decodeError =>
    rw [extract_decodeError] at h
    injection h with h
    rw [← h] at ht
    simp at ht
  | ok f =>
    cases hb : is_valid_header imp.language f.firstLine with
    | false =>
      rw [extract_ok_badHeader hb] at h
      injection h with h
      rw [← h] at ht
      simp at ht
    | true =>
      obtain ⟨hA, hP, hR, _⟩ := translateE_fields imp.language
      rw [extract_ok_goodHeader hb fname hA hP hR] at h
      obtain ⟨i, row, _, hx⟩ := extractRows_mem h t ht
      exact ⟨_, _, _, i, row, hx⟩

/-- C3: every record `extract` produces has one or two postings; the first
posting carries the configured own account and a concrete decimal amount in
currency EUR; the second posting, when present, has no amount and carries
the account the payee classifier resolves for the record's payee. -/
theorem c3_posting_invariant :
    ∀ (imp : N26Importer) (fname : PyStr) (fo : FileOutcome)
      (l : List Transaction),
      extract imp fname fo = .ok l → ∀ t ∈ l,
      ∃ d : PyDecimal,
        (t.postings.length = 1 ∨ t.postings.length = 2) ∧
        t.postings.head? = some ⟨imp.account, some (d, "EUR".data)⟩ ∧
        (t.postings.length = 2 →
          ∃ acct, classifyMatch imp.payee_patterns t.payee = some acct ∧
            t.postings.getLast? = some ⟨acct, none⟩) := by
  intro imp fname fo l h t ht
  obtain ⟨sA, sP, sR, idx, row, hx⟩ := extract_mem_from_row h t ht
  obtain ⟨rawA, amount, payeeVal, date, ref, _, _, _, _, _, rfl⟩ :=
    extractRow_ok_inv hx
  refine ⟨amount, ?_⟩
  dsimp only
  cases hcl : classifyMatch imp.payee_patterns payeeVal with
  | none =>
    rw [rowPostings, hcl]
    exact ⟨Or.inl rfl, rfl, fun h2 => absurd h2 (by simp)⟩
  | some acct =>
    rw [rowPostings, hcl]
    dsimp only
    by_cases he : acct = []
    · rw [if_pos he]
      exact ⟨Or.inl rfl, rfl, fun h2 => absurd h2 (by simp)⟩
    · rw [if_neg he]
      exact ⟨Or.inr rfl, rfl, fun _ => ⟨acct, rfl, rfl⟩⟩

theorem c3_posting_invariant_witness :
    ∃ d : PyDecimal,
      (sampleTxAcme.postings.length = 1 ∨ sampleTxAcme.postings.length = 2) ∧
      sampleTxAcme.postings.head?
        = some ⟨sampleImporter.account, some (d, "EUR".data)⟩ ∧
      (sampleTxAcme.postings.length = 2 →
        ∃ acct, classifyMatch sampleImporter.payee_patterns sampleTxAcme.payee
            = some acct ∧
          sampleTxAcme.postings.getLast? = some ⟨acct, none⟩) :=
  c3_posting_invariant sampleImporter "t.csv".data (.ok sampleFile)
    [sampleTxAcme, sampleTxZeta₁] (by rfl) sampleTxAcme
    (List.mem_cons_self _ _)

theorem dateLe_refl (a : Date) : dateLe a a = true := by
  simp [dateLe, dateGt]

theorem dateLe_trans {a b c : Date} (h₁ : dateLe a b = true)
    (h₂ : dateLe b c = true) : dateLe a c = true := by
  simp only [dateLe, dateGt, Bool.not_eq_true', decide_eq_false_iff_not] at *
  push_neg at *
  omega

theorem dateLe_of_gt {a b : Date} (h : dateGt a b = true) : dateLe b a = true := by
  simp only [dateLe, dateGt, Bool.not_eq_true', decide_eq_true_eq,
    decide_eq_false_iff_not] at *
  push_neg
  omega

theorem dateLe_of_not_gt {a b : Date} (h : dateGt a b = false) :
    dateLe a b = true := by
  simp [dateLe, h]

theorem rowWellFormed_spec {L : Lang} {row : List (PyStr × PyStr)}
    (h : rowWellFormed L row = true) :
    (∃ v d, rowGet row (labelFor L "amount_eur") = .ok v ∧ pyDecimal v = some d) ∧
    (∃ v, rowGet row (labelFor L "payee") = .ok v) ∧
    (∃ v, rowGet row (labelFor L "payment_reference") = .ok v) ∧
    (∃ d, _parse_date L row = .ok d) := by
  rw [rowWellFormed] at h
  simp only [Bool.and_eq_true] at h
  obtain ⟨⟨⟨h₁, h₂⟩, h₃⟩, h₄⟩ := h
  refine ⟨?_, ?_, ?_, ?_⟩
  · cases hv : rowGet row (labelFor L "amount_eur") with
    | error e => rw [hv] at h₁; simp at h₁
    | ok v =>
      rw [hv] at h₁
      simp only [Option.isSome_iff_exists] at h₁
      obtain ⟨d, hd⟩ := h₁
      exact ⟨v, d, rfl, hd⟩
  · cases hv : rowGet row (labelFor L "payee") with
    | error e => rw [hv] at h₂; simp at h₂
    | ok v => exact ⟨v, rfl⟩
  · cases hv : rowGet row (labelFor L "payment_reference") with
    | error e => rw [hv] at h₃; simp at h₃
    | ok v => exact ⟨v, rfl⟩
  · cases hv : _parse_date L row with
    | error e => rw [hv] at h₄; simp at h₄
    | ok d => exact ⟨d, rfl⟩

theorem extractRows_wellFormed (imp : N26Importer) (fname : PyStr) :
    ∀ (rows : List (List (PyStr × PyStr))) (idx : Nat),
      (∀ row ∈ rows, rowWellFormed imp.language row = true) →
      ∃ l, extractRows imp fname (labelFor imp.language "amount_eur")
          (labelFor imp.language "payee")
          (labelFor imp.language "payment_reference") idx rows = .ok l ∧
        l.length = rows.length ∧
        ∀ i, i < rows.length →
          ∃ t, l[i]? = some t ∧ t.meta = (fname, idx + i) ∧
            _parse_date imp.language (rows.getD i []) = .ok t.date := by
  intro rows
  induction rows with
  | nil =>
    intro idx _
    exact ⟨[], rfl, rfl, fun i hi => absurd hi (by simp)⟩
  | cons row rest ih =>
    intro idx hwf
    obtain ⟨⟨v, d, hv, hd⟩, ⟨pv, hpv⟩, ⟨rv, hrv⟩, ⟨dt, hdt⟩⟩ :=
      rowWellFormed_spec (hwf row (by simp))
    obtain ⟨l', hl', hlen, hidx⟩ :=
      ih (idx + 1) (fun r hr => hwf r (List.mem_cons_of_mem _ hr))
    refine ⟨⟨(fname, idx), dt, "*".data, pv, rv, rowPostings imp d pv⟩ :: l',
      ?_, ?_, ?_⟩
    · rw [extractRows, extractRow_eq hv hd hpv hdt hrv, hl']
    · simp [hlen]
    · intro i hi
      cases i with
      | zero =>
        exact ⟨⟨(fname, idx), dt, "*".data, pv, rv, rowPostings imp d pv⟩,
          List.getElem?_cons_zero, by simp, hdt⟩
      | succ i' =>
        obtain ⟨t, hti, hmeta, hdate⟩ := hidx i' (by
          simp only [List.length_cons] at hi
          omega)
        refine ⟨t, ?_, ?_, ?_⟩
        · rw [List.getElem?_cons_succ]
          exact hti
        · rw [hmeta]
          have harith : idx + 1 + i' = idx + (i' + 1) := by omega
          rw [harith]
        · rw [List.getD_cons_succ]
          exact hdate

theorem fileDateLoop_max (L : Lang) :
    ∀ (rows : List (List (PyStr × PyStr))) (a : Date),
      (∀ row ∈ rows, ∃ d, _parse_date L row = .ok d) →
      ∃ r, fileDateLoop L (some a) rows = .ok (some r) ∧
        dateLe a r = true ∧
        (r = a ∨ ∃ row ∈ rows, _parse_date L row = .ok r) ∧
        (∀ row ∈ rows, ∀ d', _parse_date L row = .ok d' → dateLe d' r = true) := by
  intro rows
  induction rows with
  | nil =>
    intro a _
    exact ⟨a, rfl, dateLe_refl a, Or.inl rfl, fun row hrow => absurd hrow (by simp)⟩
  | cons row rest ih =>
    intro a hall
    obtain ⟨d, hd⟩ := hall row (by simp)
    have hrest : ∀ r ∈ rest, ∃ d', _parse_date L r = .ok d' :=
      fun r hr => hall r (List.mem_cons_of_mem _ hr)
    by_cases hgt : dateGt d a = true
    · obtain ⟨r, hr, hle, hsrc, hub⟩ := ih d hrest
      refine ⟨r, ?_, ?_, ?_, ?_⟩
      · rw [fileDateLoop, hd]
        dsimp only
        rw [if_pos hgt]
        exact hr
      · exact dateLe_trans (dateLe_of_gt hgt) hle
      · rcases hsrc with rfl | ⟨row', hrow', hrow'd⟩
        · exact Or.inr ⟨row, by simp, hd⟩
        · exact Or.inr ⟨row', List.mem_cons_of_mem _ hrow', hrow'd⟩
      · intro row' hrow' d' hd'
        rcases List.mem_cons.mp hrow' with rfl | hmem
        · rw [hd] at hd'
          injection hd' with hd'
          rw [← hd']
          exact hle
        · exact hub row' hmem d' hd'
    · obtain ⟨r, hr, hle, hsrc, hub⟩ := ih a hrest
      refine ⟨r, ?_, hle, ?_, ?_⟩
      · rw [fileDateLoop, hd]
        dsimp only
        rw [if_neg hgt]
        exact hr
      · rcases hsrc with rfl | ⟨row', hrow', hrow'd⟩
        · exact Or.inl rfl
        · exact Or.inr ⟨row', List.mem_cons_of_mem _ hrow', hrow'd⟩
      · intro row' hrow' d' hd'
        rcases List.mem_cons.mp hrow' with rfl | hmem
        · rw [hd] at hd'
          injection hd' with hd'
          rw [← hd']
          exact dateLe_trans (dateLe_of_not_gt (Bool.not_eq_true _ ▸ hgt)) hle
        · exact hub row' hmem d' hd'

theorem file_date_goodHeader {imp : N26Importer} {f : CsvFile}
    (hb : is_valid_header imp.language f.firstLine = true) :
    file_date imp (.ok f) = fileDateLoop imp.language none f.rows := by
  rw [file_date, show identify imp (.ok f)
      = .ok (is_valid_header imp.language f.firstLine) from rfl, hb]

/-- C4: on a file with a matching header and N well-formed data rows,
`extract` returns exactly N records in file order, each carrying the source
file name and its zero-based row index as metadata, and `file_date` returns
the maximum of the N parsed dates; on a file whose header does not match,
`extract` returns an empty sequence, `identify` returns false, and
`file_date` returns none. -/
theorem c4_extract_and_file_date :
    ∀ (imp : N26Importer) (fname : PyStr) (f : CsvFile),
      (is_valid_header imp.language f.firstLine = true →
        (∀ row ∈ f.rows, rowWellFormed imp.language row = true) →
        ∃ l, extract imp fname (.ok f) = .ok l ∧
          l.length = f.rows.length ∧
          (∀ i, i < f.rows.length →
            ∃ t, l[i]? = some t ∧ t.meta = (fname, i) ∧
              _parse_date imp.language (f.rows.getD i []) = .ok t.date) ∧
          (f.rows ≠ [] →
            ∃ dmax, file_date imp (.ok f) = .ok (some dmax) ∧
              (∃ row ∈ f.rows, _parse_date imp.language row = .ok dmax) ∧
              (∀ row ∈ f.rows, ∀ d', _parse_date imp.language row = .ok d' →
                dateLe d' dmax = true))) ∧
      (is_valid_header imp.language f.firstLine = false →
        extract imp fname (.ok f) = .ok [] ∧
        identify imp (.ok f) = .ok false ∧
        file_date imp (.ok f) = .ok none) := by
  intro imp fname f
  constructor
  · intro hb hwf
    obtain ⟨hA, hP, hR, _⟩ := translateE_fields imp.language
    obtain ⟨l, hl, hlen, hidx⟩ := extractRows_wellFormed imp fname f.rows 0 hwf
    refine ⟨l, ?_, hlen, ?_, ?_⟩
    · rw [extract_ok_goodHeader hb fname hA hP hR]
      exact hl
    · intro i hi
      obtain ⟨t, h1, h2, h3⟩ := hidx i hi
      exact ⟨t, h1, by simpa using h2, h3⟩
    · intro hne
      have hall : ∀ r ∈ f.rows, ∃ d, _parse_date imp.language r = .ok d :=
        fun r hr => (rowWellFormed_spec (hwf r hr)).2.2.2
      obtain ⟨row, rest, hrows⟩ : ∃ row rest, f.rows = row :: rest := by
        cases hcase : f.rows with
        | nil => exact absurd hcase hne
        | cons a b => exact ⟨a, b, rfl⟩
      rw [file_date_goodHeader hb, hrows]
      rw [hrows] at hall
      obtain ⟨d, hd⟩ := hall row (by simp)
      obtain ⟨r, hr, hle, hsrc, hub⟩ := fileDateLoop_max imp.language rest d
        (fun x hx => hall x (List.mem_cons_of_mem _ hx))
      refine ⟨r, ?_, ?_, ?_⟩
      · rw [fileDateLoop, hd]
        dsimp only
        exact hr
      · rcases hsrc with rfl | ⟨row', hrow', hrowd⟩
        · exact ⟨row, by simp, hd⟩
        · exact ⟨row', List.mem_cons_of_mem _ hrow', hrowd⟩
      · intro row' hrow' d' hd'
        rcases List.mem_cons.mp hrow' with rfl | hmem
        · rw [hd] at hd'
          injection hd' with hd'
          rw [← hd']
          exact hle
        · exact hub row' hmem d' hd'
  · intro hb
    refine ⟨extract_ok_badHeader hb fname, ?_, ?_⟩
    · rw [show identify imp (.ok f)
        = .ok (is_valid_header imp.language f.firstLine) from rfl, hb]
    · simp [file_date, identify, hb]

theorem c4_extract_and_file_date_witness :
    (∃ l, extract sampleImporter "t.csv".data (.ok sampleFile) = .ok l ∧
      l.length = sampleFile.rows.length ∧
      (∀ i, i < sampleFile.rows.length →
        ∃ t, l[i]? = some t ∧ t.meta = ("t.csv".data, i) ∧
          _parse_date sampleImporter.language (sampleFile.rows.getD i [])
            = .ok t.date) ∧
      (sampleFile.rows ≠ [] →
        ∃ dmax, file_date sampleImporter (.ok sampleFile) = .ok (some dmax) ∧
          (∃ row ∈ sampleFile.rows,
            _parse_date sampleImporter.language row = .ok dmax) ∧
          (∀ row ∈ sampleFile.rows, ∀ d',
            _parse_date sampleImporter.language row = .ok d' →
            dateLe d' dmax = true))) ∧
    (extract sampleImporter "t.csv".data (.ok sampleFileBadHeader) = .ok [] ∧
      identify sampleImporter (.ok sampleFileBadHeader) = .ok false ∧
      file_date sampleImporter (.ok sampleFileBadHeader) = .ok none) :=
  ⟨(c4_extract_and_file_date sampleImporter "t.csv".data sampleFile).1
      (by decide) (by decide),
   (c4_extract_and_file_date sampleImporter "t.csv".data sampleFileBadHeader).2
      (by decide)⟩

/-- C9 is false as stated: two importers carrying the *same* configuration
(same account, language, encoding, and the same payee-rule set, merely
iterated in a different order — which Python's `set` does not pin down)
extract different counter-accounts from the same file content when several
patterns match the same payee. -/
theorem c9_counterexample :
    importerOrder₁.iban = importerOrder₂.iban ∧
    importerOrder₁.account = importerOrder₂.account ∧
    importerOrder₁.language = importerOrder₂.language ∧
    importerOrder₁.file_encoding = importerOrder₂.file_encoding ∧
    importerOrder₁.payee_patterns.Perm importerOrder₂.payee_patterns ∧
    extract importerOrder₁ "t.csv".data (.ok sampleFileAcmeOnly) = .ok [c9Tx₁] ∧
    extract importerOrder₂ "t.csv".data (.ok sampleFileAcmeOnly) = .ok [c9Tx₂] ∧
    c9Tx₁ ≠ c9Tx₂ :=
  ⟨rfl, rfl, rfl, rfl, List.Perm.swap ruleAc ruleAcme [], by rfl, by rfl,
   by decide⟩

theorem perm_eq_of_length_le_one {α : Type} {l₁ l₂ : List α}
    (h : l₁.Perm l₂) (hl : l₁.length ≤ 1) : l₁ = l₂ := by
  cases l₁ with
  | nil => rw [h.nil_eq]
  | cons a l₁' =>
    cases l₁' with
    | nil => exact List.singleton_perm.mp h
    | cons b l₁'' => simp at hl

theorem classifyMatch_perm {l₁ l₂ : List (RegularExpression Char × PyStr)}
    (h : l₁.Perm l₂) (payee : PyStr)
    (hcount : (l₁.countP fun pat => reMatch pat.1 payee) ≤ 1) :
    classifyMatch l₁ payee = classifyMatch l₂ payee := by
  rw [classifyMatch_eq_getLast?, classifyMatch_eq_getLast?]
  have hf := perm_eq_of_length_le_one (h.filter fun pat => reMatch pat.1 payee)
    (by rw [← List.countP_eq_length_filter]; exact hcount)
  rw [hf]

theorem rowPostings_congr {imp₁ imp₂ : N26Importer}
    (hacc : imp₁.account = imp₂.account)
    (hcl : ∀ payee, classifyMatch imp₁.payee_patterns payee
      = classifyMatch imp₂.payee_patterns payee)
    (amount : PyDecimal) (payeeVal : PyStr) :
    rowPostings imp₁ amount payeeVal = rowPostings imp₂ amount payeeVal := by
  rw [rowPostings, rowPostings, hacc, hcl]

theorem extractRow_congr {imp₁ imp₂ : N26Importer}
    (hacc : imp₁.account = imp₂.account)
    (hlang : imp₁.language = imp₂.language)
    (hcl : ∀ payee, classifyMatch imp₁.payee_patterns payee
      = classifyMatch imp₂.payee_patterns payee)
    (fname sA sP sR : PyStr) (idx : Nat) (row : List (PyStr × PyStr)) :
    extractRow imp₁ fname sA sP sR idx row
      = extractRow imp₂ fname sA sP sR idx row := by
  simp only [extractRow, hlang, rowPostings_congr hacc hcl]

theorem extractRows_congr {imp₁ imp₂ : N26Importer}
    (hacc : imp₁.account = imp₂.account)
    (hlang : imp₁.language = imp₂.language)
    (hcl : ∀ payee, classifyMatch imp₁.payee_patterns payee
      = classifyMatch imp₂.payee_patterns payee)
    (fname sA sP sR : PyStr) :
    ∀ (rows : List (List (PyStr × PyStr))) (idx : Nat),
      extractRows imp₁ fname sA sP sR idx rows
        = extractRows imp₂ fname sA sP sR idx rows := by
  intro rows
  induction rows with
  | nil => intro idx; rfl
  | cons row rest ih =>
    intro idx
    rw [extractRows, extractRows, extractRow_congr hacc hlang hcl, ih]

/-- C9 amended: every operation is a deterministic pure function of the
file content, the configuration *and the iteration order of the payee rule
set*; `identify` and `file_date` do not depend on that order at all, and
`extract` does not depend on it as long as at most one rule matches any
given payee. -/
theorem c9_amended :
    ∀ (imp₁ imp₂ : N26Importer) (fname : PyStr) (fo : FileOutcome),
      imp₁.account = imp₂.account → imp₁.language = imp₂.language →
      imp₁.payee_patterns.Perm imp₂.payee_patterns →
      identify imp₁ fo = identify imp₂ fo ∧
      file_date imp₁ fo = file_date imp₂ fo ∧
      ((∀ payee : PyStr,
          (imp₁.payee_patterns.countP fun pat => reMatch pat.1 payee) ≤ 1) →
        extract imp₁ fname fo = extract imp₂ fname fo) := by
  intro imp₁ imp₂ fname fo hacc hlang hperm
  have hid : identify imp₁ fo = identify imp₂ fo := by
    cases fo <;> simp [identify, hlang]
  refine ⟨hid, ?_, ?_⟩
  · cases fo with
    | osError => rfl
    | decodeError => rfl
    | ok f =>
      rw [file_date, file_date, hid]
      cases identify imp₂ (.ok f) with
      | error e => rfl
      | ok b =>
        cases b with
        | false => rfl
        | true =>
          dsimp only
          rw [hlang]
  · intro hcount
    have hcl : ∀ payee, classifyMatch imp₁.payee_patterns payee
        = classifyMatch imp₂.payee_patterns payee :=
      fun payee => classifyMatch_perm hperm payee (hcount payee)
    cases fo with
    | osError => rfl
    | decodeError => rfl
    | ok f =>
      rw [extract, extract, hid]
      cases identify imp₂ (.ok f) with
      | error e => rfl
      | ok b =>
        cases b with
        | false => rfl
        | true =>
          dsimp only
          rw [hlang]
          simp only [extractRows_congr hacc hlang hcl]

theorem c9_amended_witness :
    identify importerOrder₁ (.ok sampleFileAcmeOnly)
      = identify importerOrder₂ (.ok sampleFileAcmeOnly) ∧
    file_date importerOrder₁ (.ok sampleFileAcmeOnly)
      = file_date importerOrder₂ (.ok sampleFileAcmeOnly) ∧
    ((∀ payee : PyStr,
        (importerOrder₁.payee_patterns.countP fun pat => reMatch pat.1 payee) ≤ 1) →
      extract importerOrder₁ "t.csv".data (.ok sampleFileAcmeOnly)
        = extract importerOrder₂ "t.csv".data (.ok sampleFileAcmeOnly)) :=
  c9_amended importerOrder₁ importerOrder₂ "t.csv".data (.ok sampleFileAcmeOnly)
    rfl rfl (List.Perm.swap ruleAc ruleAcme [])

theorem extractRow_error_of_date {imp : N26Importer} {fname sA sP sR : PyStr}
    {idx : Nat} {row : List (PyStr × PyStr)}
    (h : ∃ e, _parse_date imp.language row = .error e) :
    ∃ e, extractRow imp fname sA sP sR idx row = .error e := by
  obtain ⟨e, he⟩ := h
  rw [extractRow]
  cases h₁ : rowGet row sA with
  | error e₁ => exact ⟨e₁, rfl⟩
  | ok v =>
    dsimp only
    cases h₂ : pyDecimal v with
    | none => exact ⟨.invalidOperation, rfl⟩
    | some amount =>
      dsimp only
      cases h₃ : rowGet row sP with
      | error e₃ => exact ⟨e₃, rfl⟩
      | ok pv =>
        dsimp only
        rw [he]
        exact ⟨e, rfl⟩

theorem extractRow_error_of_amount {imp : N26Importer} {fname sA sP sR : PyStr}
    {idx : Nat} {row : List (PyStr × PyStr)} {v : PyStr}
    (hv : rowGet row sA = .ok v) (hd : pyDecimal v = none) :
    extractRow imp fname sA sP sR idx row = .error .invalidOperation := by
  rw [extractRow, hv]
  dsimp only
  rw [hd]

theorem extractRows_error_of_mem {imp : N26Importer} {fname sA sP sR : PyStr}
    {row : List (PyStr × PyStr)}
    (herr : ∀ idx, ∃ e, extractRow imp fname sA sP sR idx row = .error e) :
    ∀ {rows : List (List (PyStr × PyStr))}, row ∈ rows →
      ∀ idx, ∃ e, extractRows imp fname sA sP sR idx rows = .error e := by
  intro rows
  induction rows with
  | nil => intro h; simp at h
  | cons r rest ih =>
    intro hmem idx
    rw [extractRows]
    cases h₁ : extractRow imp fname sA sP sR idx r with
    | error e => exact ⟨e, rfl⟩
    | ok t =>
      rcases List.mem_cons.mp hmem with rfl | hmem'
      · obtain ⟨e, he⟩ := herr idx
        rw [he] at h₁
        exact absurd h₁ (by simp)
      · obtain ⟨e, he⟩ := ih hmem' (idx + 1)
        dsimp only
        rw [he]
        exact ⟨e, rfl⟩

theorem fileDateLoop_error_of_mem {L : Lang} {row : List (PyStr × PyStr)}
    {e₀ : PyError} (herr : _parse_date L row = .error e₀) :
    ∀ {rows : List (List (PyStr × PyStr))}, row ∈ rows →
      ∀ acc, ∃ e, fileDateLoop L acc rows = .error e := by
  intro rows
  induction rows with
  | nil => intro h; simp at h
  | cons r rest ih =>
    intro hmem acc
    rw [fileDateLoop]
    cases h₁ : _parse_date L r with
    | error e => exact ⟨e, rfl⟩
    | ok d =>
      rcases List.mem_cons.mp hmem with rfl | hmem'
      · rw [herr] at h₁
        exact absurd h₁ (by simp)
      · obtain ⟨e, he⟩ := ih hmem'
          (match acc with
           | none => some d
           | some a => if dateGt d a then some d else acc)
        dsimp only
        exact ⟨e, he⟩

/-- C6 is false as stated: the date `2021-3-5` is *not* in the exact format
`YYYY-MM-DD` (month and day are not zero-padded), yet
`strptime('%Y-%m-%d')` documents leading zeros as optional and accepts it,
so `extract` and `file_date` on an identified file containing that row
succeed instead of raising. -/
theorem c6_counterexample :
    spec_exactYmdFormat "2021-3-5".data = false ∧
    strptimeYmd "2021-3-5".data = some ⟨2021, 3, 5⟩ ∧
    extract sampleImporter "t.csv".data (.ok sampleFileLoose)
      = .ok [sampleTxLoose] ∧
    file_date sampleImporter (.ok sampleFileLoose) = .ok (some ⟨2021, 3, 5⟩) :=
  ⟨by decide, by decide, by rfl, by rfl⟩

/-- C6 amended: in an identified file, a row whose date field fails the
`strptime('%Y-%m-%d')` parse (four-digit year, one-or-two-digit month and
day, calendar-valid, nothing left over) makes both `extract` and
`file_date` raise, and a row whose EUR amount fails `Decimal` parsing — in
particular the text `12,34` — makes `extract` raise; no fallback value is
produced. -/
theorem c6_row_errors :
    ∀ (imp : N26Importer) (fname : PyStr) (f : CsvFile)
      (row : List (PyStr × PyStr)),
      is_valid_header imp.language f.firstLine = true → row ∈ f.rows →
      ((∃ e, _parse_date imp.language row = .error e) →
        (∃ e, extract imp fname (.ok f) = .error e) ∧
        (∃ e, file_date imp (.ok f) = .error e)) ∧
      (∀ v, rowGet row (labelFor imp.language "amount_eur") = .ok v →
        pyDecimal v = none →
        ∃ e, extract imp fname (.ok f) = .error e) := by
  intro imp fname f row hb hmem
  obtain ⟨hA, hP, hR, _⟩ := translateE_fields imp.language
  constructor
  · intro hdate
    constructor
    · rw [extract_ok_goodHeader hb fname hA hP hR]
      exact extractRows_error_of_mem
        (fun _ => extractRow_error_of_date hdate) hmem 0
    · obtain ⟨e, he⟩ := hdate
      rw [file_date_goodHeader hb]
      exact fileDateLoop_error_of_mem he hmem none
  · intro v hv hd
    rw [extract_ok_goodHeader hb fname hA hP hR]
    exact extractRows_error_of_mem
      (fun _ => ⟨.invalidOperation, extractRow_error_of_amount hv hd⟩) hmem 0

theorem c6_row_errors_witness :
    ((∃ e, extract sampleImporter "t.csv".data (.ok sampleFileBadDate)
        = .error e) ∧
     (∃ e, file_date sampleImporter (.ok sampleFileBadDate) = .error e)) ∧
    (∃ e, extract sampleImporter "t.csv".data (.ok sampleFileBadAmount)
      = .error e) :=
  ⟨(c6_row_errors sampleImporter "t.csv".data sampleFileBadDate
      sampleRowBadDate (by decide) (List.mem_cons_self _ _)).1
      ⟨.valueError, by rfl⟩,
   (c6_row_errors sampleImporter "t.csv".data sampleFileBadAmount
      sampleRowBadAmount (by decide) (List.mem_cons_self _ _)).2
      "12,34".data (by rfl) (by rfl)⟩
